import Mathlib

/-!
Verification of the announcement-sequencing core of ZugSim-Ansager
(`src/app.py`), via a shallow embedding in Lean 4.

The embedding mirrors the Python classes:
* `Route`, `AnnouncementManager` (with `load_route`, `next_message`,
  `repeat_last`, `next_station_name`, `reset`);
* `HotkeyController.register` / `unregister` (the external `keyboard`
  module is abstracted as an oracle `String → Option Nat` returning a
  handle on success and nothing when the combination is unparsable);
* `AudioEngine._run_loop` (the blocking queue is abstracted as the finite
  list of dequeued items; the TTS engine as an oracle that may fail);
* `AnnouncementApp._read_route` (decoding is abstracted away since the
  latin-1 fallback never fails; `pathlib`'s `stem` is modelled on the
  final path component).

Python exceptions are modelled with `Except String`; Python list indexing
that could be out of range maps to `Option`-returning lookups whose `none`
case produces an `IndexError` value.
-/

/-- The `Route` dataclass from `src/app.py`. -/
structure Route where
  name : String
  stations : List String
  deriving Repr, DecidableEq

/-- The mutable fields of the Python `AnnouncementManager` object
(leading underscores dropped). -/
structure AnnouncementManager where
  route : Option Route
  welcome_played : Bool
  next_index : Nat
  finished : Bool
  last_message : Option String
  deriving Repr, DecidableEq

/-- The state built by `AnnouncementManager.__init__`. -/
def initManager : AnnouncementManager :=
  { route := none, welcome_played := false, next_index := 1,
    finished := false, last_message := none }

/-- Embeds `AnnouncementManager.load_route`. -/
def load_route (m : AnnouncementManager) (r : Route) : AnnouncementManager :=
  { m with
    route := some r,
    welcome_played := false,
    finished := false,
    last_message := none,
    next_index := if r.stations.length > 1 then 1 else 0 }

/-- The welcome text built in branch 2 of `next_message` (an f-string in
the source; string concatenation yields the same value). -/
def welcomeMessage (start stop : String) : String :=
  "Willkommen im Zug. Heute fahren wir von " ++
    (start ++ (" nach " ++ (stop ++
      ". Bitte achten Sie auf Ihre Gepaeckstuecke und eine angenehme Fahrt.")))

/-- The single-station terminal text built in branch 3 of `next_message`. -/
def singleTerminalMessage (st : String) : String :=
  "Wir erreichen in wenigen Augenblicken die Endstation " ++
    (st ++ ". Bitte steigen Sie vorsichtig aus.")

/-- The farewell text built in branch 4 of `next_message`. -/
def farewellMessage : String :=
  "Wir haben bereits alle Stationen erreicht. " ++
    "Vielen Dank, dass Sie mit uns gefahren sind."

/-- The terminal-approach text built in branch 5 of `next_message`. -/
def terminalApproachMessage (st : String) : String :=
  "Wir erreichen in wenigen Augenblicken die Endstation " ++
    (st ++ ". Bitte nehmen Sie alle persoenlichen Gegenstaende mit.")

/-- The next-stop text built in branch 5 of `next_message`. -/
def nextStopMessage (st : String) : String :=
  "Naechster Halt: " ++ (st ++ ".")

/-- Embeds `AnnouncementManager.next_message`.  The `.error` cases model the
`RuntimeError` raised by `_ensure_route` and the `IndexError` a Python
list subscript raises out of range (`stations[-1]` is `getLast?`). -/
def next_message (m : AnnouncementManager) :
    Except String (Option String × AnnouncementManager) :=
  match m.route with
  | none => .error "Keine Strecke geladen."
  | some route =>
    if m.finished then .ok (none, m)
    else if !m.welcome_played then
      match route.stations.head?, route.stations.getLast? with
      | some start, some stop =>
        let text := welcomeMessage start stop
        .ok (some text, { m with welcome_played := true, last_message := some text })
      | _, _ => .error "IndexError"
    else if route.stations.length == 1 then
      match route.stations.head? with
      | some st =>
        let text := singleTerminalMessage st
        .ok (some text, { m with finished := true, last_message := some text })
      | none => .error "IndexError"
    else if m.next_index ≥ route.stations.length then
      .ok (some farewellMessage,
        { m with finished := true, last_message := some farewellMessage })
    else
      match route.stations.get? m.next_index with
      | some station =>
        if m.next_index == route.stations.length - 1 then
          let text := terminalApproachMessage station
          .ok (some text,
            { m with finished := true, next_index := m.next_index + 1,
                     last_message := some text })
        else
          let text := nextStopMessage station
          .ok (some text,
            { m with next_index := m.next_index + 1, last_message := some text })
      | none => .error "IndexError"

/-- Embeds `AnnouncementManager.repeat_last`. -/
def repeat_last (m : AnnouncementManager) : Option String :=
  m.last_message

/-- Embeds `AnnouncementManager.next_station_name`. -/
def next_station_name (m : AnnouncementManager) : Option String :=
  match m.route with
  | none => none
  | some route =>
    if m.finished then none
    else if route.stations.length == 1 then route.stations.head?
    else if m.next_index ≥ route.stations.length then none
    else route.stations.get? m.next_index

/-- Embeds `AnnouncementManager.reset`. -/
def reset (m : AnnouncementManager) : AnnouncementManager :=
  { m with route := none, welcome_played := false, finished := false,
           last_message := none, next_index := 1 }

/-- Iterate `next_message` `k` times, collecting the produced signals and
the final state; an exception anywhere aborts the run. -/
def runN (m : AnnouncementManager) :
    Nat → Except String (List (Option String) × AnnouncementManager)
  | 0 => .ok ([], m)
  | k + 1 =>
    match next_message m with
    | .error e => .error e
    | .ok (o, m') =>
      match runN m' k with
      | .error e => .error e
      | .ok (os, m'') => .ok (o :: os, m'')

example :
    runN (load_route initManager ⟨"r", ["A", "B", "C"]⟩) 5 =
      .ok ([some (welcomeMessage "A" "C"), some (nextStopMessage "B"),
            some (terminalApproachMessage "C"), none, none],
           { route := some ⟨"r", ["A", "B", "C"]⟩, welcome_played := true,
             next_index := 3, finished := true,
             last_message := some (terminalApproachMessage "C") }) := rfl

example :
    runN (load_route initManager ⟨"r", ["A"]⟩) 3 =
      .ok ([some (welcomeMessage "A" "A"), some (singleTerminalMessage "A"), none],
           { route := some ⟨"r", ["A"]⟩, welcome_played := true,
             next_index := 0, finished := true,
             last_message := some (singleTerminalMessage "A") }) := rfl

/-! ### Branch lemmas for `next_message` -/

theorem next_message_finished (m : AnnouncementManager) (r : Route)
    (hr : m.route = some r) (hf : m.finished = true) :
    next_message m = .ok (none, m) := by
  simp [next_message, hr, hf]

theorem next_message_welcome (nm : String) (s : List String) (i : Nat)
    (lm : Option String) (a e : String)
    (hh : s.head? = some a) (hl : s.getLast? = some e) :
    next_message { route := some ⟨nm, s⟩, welcome_played := false,
                   next_index := i, finished := false, last_message := lm } =
      .ok (some (welcomeMessage a e),
        { route := some ⟨nm, s⟩, welcome_played := true, next_index := i,
          finished := false, last_message := some (welcomeMessage a e) }) := by
  simp [next_message, hh, hl]

theorem next_message_single (nm st : String) (i : Nat) (lm : Option String) :
    next_message { route := some ⟨nm, [st]⟩, welcome_played := true,
                   next_index := i, finished := false, last_message := lm } =
      .ok (some (singleTerminalMessage st),
        { route := some ⟨nm, [st]⟩, welcome_played := true, next_index := i,
          finished := true, last_message := some (singleTerminalMessage st) }) := by
  simp [next_message]

theorem next_message_farewell (nm : String) (s : List String) (i : Nat)
    (lm : Option String) (hlen : s.length ≠ 1) (hge : s.length ≤ i) :
    next_message { route := some ⟨nm, s⟩, welcome_played := true,
                   next_index := i, finished := false, last_message := lm } =
      .ok (some farewellMessage,
        { route := some ⟨nm, s⟩, welcome_played := true, next_index := i,
          finished := true, last_message := some farewellMessage }) := by
  simp [next_message, hlen, hge]

theorem next_message_terminal (nm : String) (s : List String) (i : Nat)
    (lm : Option String) (hlen : s.length ≠ 1) (hidx : i < s.length)
    (st : String) (hg : s[i]? = some st) (hlast : i = s.length - 1) :
    next_message { route := some ⟨nm, s⟩, welcome_played := true,
                   next_index := i, finished := false, last_message := lm } =
      .ok (some (terminalApproachMessage st),
        { route := some ⟨nm, s⟩, welcome_played := true, next_index := i + 1,
          finished := true,
          last_message := some (terminalApproachMessage st) }) := by
  subst hlast
  have hnle : ¬ (s.length ≤ s.length - 1) := by omega
  simp [next_message, hlen, hg, hnle]

theorem next_message_nextStop (nm : String) (s : List String) (i : Nat)
    (lm : Option String) (hlen : s.length ≠ 1) (hidx : i < s.length)
    (st : String) (hg : s[i]? = some st) (hlast : i ≠ s.length - 1) :
    next_message { route := some ⟨nm, s⟩, welcome_played := true,
                   next_index := i, finished := false, last_message := lm } =
      .ok (some (nextStopMessage st),
        { route := some ⟨nm, s⟩, welcome_played := true, next_index := i + 1,
          finished := false,
          last_message := some (nextStopMessage st) }) := by
  simp [next_message, hlen, hg, hlast, Nat.not_le.mpr hidx]

/-! ### Run lemmas -/

theorem runN_finished (m : AnnouncementManager) (r : Route)
    (hr : m.route = some r) (hf : m.finished = true) (k : Nat) :
    runN m k = .ok (List.replicate k none, m) := by
  induction k with
  | zero => rfl
  | succ k ih =>
    simp [runN, next_message_finished m r hr hf, ih, List.replicate_succ]

theorem runN_succ_ok2 (m m2 : AnnouncementManager) (o : Option String)
    (k : Nat) (os : List (Option String)) (mf : AnnouncementManager)
    (h1 : next_message m = .ok (o, m2)) (h2 : runN m2 k = .ok (os, mf)) :
    runN m (k + 1) = .ok (o :: os, mf) := by
  simp [runN, h1, h2]

theorem runN_add_ok (a : Nat) : ∀ (b : Nat) (m m1 : AnnouncementManager)
    (os : List (Option String)), runN m a = .ok (os, m1) →
    runN m (a + b) =
      (match runN m1 b with
       | .error e => .error e
       | .ok (os', m2) => .ok (os ++ os', m2)) := by
  induction a with
  | zero =>
    intro b m m1 os h
    simp only [runN, Except.ok.injEq, Prod.mk.injEq] at h
    obtain ⟨h3, h4⟩ := h
    subst h3; subst h4
    rw [Nat.zero_add]
    cases hb : runN m b with
    | error e => rfl
    | ok q => obtain ⟨os2, m2⟩ := q; rfl
  | succ a ih =>
    intro b m m1 os h
    cases hn : next_message m with
    | error e =>
      simp only [runN, hn] at h
      exact Except.noConfusion h
    | ok p =>
      obtain ⟨o, m2⟩ := p
      simp only [runN, hn] at h
      cases hra : runN m2 a with
      | error e =>
        rw [hra] at h
        exact Except.noConfusion h
      | ok q =>
        obtain ⟨os0, mm⟩ := q
        rw [hra] at h
        simp only [Except.ok.injEq, Prod.mk.injEq] at h
        obtain ⟨h3, h4⟩ := h
        subst h4; subst h3
        have hsa : a + 1 + b = (a + b) + 1 := by omega
        rw [hsa]
        simp only [runN, hn]
        rw [ih b m2 mm os0 hra]
        cases runN mm b with
        | error e => rfl
        | ok q2 => obtain ⟨os3, m3⟩ := q2; rfl

/-- Helper: indexing a concatenation at the length of its left part
reads the head of the right part. -/
theorem get?_append_len (pre rest : List String) :
    (pre ++ rest)[pre.length]? = rest.head? := by
  induction pre with
  | nil => cases rest <;> simp
  | cons a l ih => simpa using ih

/-- The signals produced by the in-transit phase of a route: a
"next stop" announcement per intermediate station and a terminal-approach
announcement for the last one. -/
def transitMsgs : List String → List (Option String)
  | [] => []
  | [st] => [some (terminalApproachMessage st)]
  | st :: rest => some (nextStopMessage st) :: transitMsgs rest

theorem transitMsgs_eq (t : List String) (lastSt : String)
    (h : t.getLast? = some lastSt) :
    transitMsgs t =
      t.dropLast.map (fun st => some (nextStopMessage st)) ++
        [some (terminalApproachMessage lastSt)] := by
  induction t generalizing lastSt with
  | nil => exact Option.noConfusion h
  | cons st rest ih =>
    cases rest with
    | nil =>
      have : lastSt = st := by simpa using h.symm
      subst this
      rfl
    | cons y rest2 =>
      have h2 : (y :: rest2).getLast? = some lastSt := by
        rw [← h]; exact (List.getLast?_cons_cons ..).symm
      simp only [transitMsgs, ih lastSt h2, List.dropLast_cons₂, List.map_cons,
        List.cons_append]

/-- Running the sequencer from an in-transit state (welcome played, not
finished, `next_index` pointing at the first station of the remaining
suffix `rest`) for exactly `rest.length` steps announces every remaining
station in order and ends in a finished state. -/
theorem transit_run (rest : List String) :
    ∀ (pre : List String) (nm : String) (lm : Option String) (lastSt : String),
      pre ≠ [] → rest.getLast? = some lastSt →
      runN { route := some ⟨nm, pre ++ rest⟩, welcome_played := true,
             next_index := pre.length, finished := false,
             last_message := lm } rest.length =
        .ok (transitMsgs rest,
          { route := some ⟨nm, pre ++ rest⟩, welcome_played := true,
            next_index := (pre ++ rest).length, finished := true,
            last_message := some (terminalApproachMessage lastSt) }) := by
  induction rest with
  | nil => intro pre nm lm lastSt hpre hlast; exact Option.noConfusion hlast
  | cons st rest ih =>
    intro pre nm lm lastSt hpre hlast
    cases rest with
    | nil =>
      have hst : st = lastSt := by simpa using hlast
      subst hst
      have hg : (pre ++ [st])[pre.length]? = some st := by
        rw [get?_append_len]; rfl
      have hlen : (pre ++ [st]).length ≠ 1 := by
        cases pre with
        | nil => exact absurd rfl hpre
        | cons p0 pt => simp
      have hidx : pre.length < (pre ++ [st]).length := by simp
      have hlastIdx : pre.length = (pre ++ [st]).length - 1 := by simp
      have hstep := next_message_terminal nm (pre ++ [st]) pre.length lm
        hlen hidx st hg hlastIdx
      have hrun := runN_succ_ok2 _ _ _ 0 [] _ hstep rfl
      rw [Nat.zero_add] at hrun
      show runN _ 1 = _
      rw [hrun]
      simp [transitMsgs]
    | cons y rest2 =>
      have hlast2 : (y :: rest2).getLast? = some lastSt := by
        rw [← hlast]; exact (List.getLast?_cons_cons ..).symm
      have hg : (pre ++ st :: y :: rest2)[pre.length]? = some st := by
        rw [get?_append_len]; rfl
      have hlen : (pre ++ st :: y :: rest2).length ≠ 1 := by
        simp only [List.length_append, List.length_cons]; omega
      have hidx : pre.length < (pre ++ st :: y :: rest2).length := by
        simp only [List.length_append, List.length_cons]; omega
      have hlastIdx : pre.length ≠ (pre ++ st :: y :: rest2).length - 1 := by
        simp only [List.length_append, List.length_cons]; omega
      have hstep := next_message_nextStop nm (pre ++ st :: y :: rest2)
        pre.length lm hlen hidx st hg hlastIdx
      have hih := ih (pre ++ [st]) nm (some (nextStopMessage st)) lastSt
        (by simp) hlast2
      rw [show (pre ++ [st]) ++ (y :: rest2) = pre ++ st :: y :: rest2 from
        by simp] at hih
      rw [show (pre ++ [st]).length = pre.length + 1 from by simp] at hih
      have hrun := runN_succ_ok2 _ _ _ (y :: rest2).length
        (transitMsgs (y :: rest2)) _ hstep hih
      show runN _ ((y :: rest2).length + 1) = _
      rw [hrun]
      simp [transitMsgs]

theorem runN_add_ok2 (a b : Nat) (m m1 m2 : AnnouncementManager)
    (os os' : List (Option String)) (h1 : runN m a = .ok (os, m1))
    (h2 : runN m1 b = .ok (os', m2)) :
    runN m (a + b) = .ok (os ++ os', m2) := by
  rw [runN_add_ok a b m m1 os h1, h2]

/-! ### Claim theorems for the sequencing state machine -/

/-- C1: for a route with `N ≥ 2` stations loaded via `load_route`,
repeated `next_message` calls yield the welcome message naming the first
and last stations, then `N - 1` messages in station order ("next stop"
for indices `1..N-2`, terminal approach for index `N-1`); the final state
is finished and every further call (any `k` of them) returns the
"nothing left" signal `none` without re-triggering the farewell text. -/
theorem C1_multi_station_sequence (nm : String) (s : List String)
    (h : 2 ≤ s.length) (k : Nat) :
    runN (load_route initManager ⟨nm, s⟩) (s.length + k) =
      .ok (some (welcomeMessage (s.headD "") (s.getLastD "")) ::
             ((s.drop 1).dropLast.map (fun st => some (nextStopMessage st)) ++
              ([some (terminalApproachMessage (s.getLastD ""))] ++
               List.replicate k none)),
           { route := some ⟨nm, s⟩, welcome_played := true,
             next_index := s.length, finished := true,
             last_message := some (terminalApproachMessage (s.getLastD "")) }) := by
  cases s with
  | nil => simp at h
  | cons a t =>
    cases t with
    | nil => simp at h
    | cons b u =>
      obtain ⟨z, hz⟩ : ∃ z, (b :: u).getLast? = some z :=
        ⟨(b :: u).getLast (by simp), List.getLast?_eq_getLast _ _⟩
      have hzD : (a :: b :: u).getLastD "" = z := by
        simp [List.getLast?_cons_cons, hz]
      have hzla : (a :: b :: u).getLast? = some z := by
        rw [List.getLast?_cons_cons]; exact hz
      have hload : load_route initManager ⟨nm, a :: b :: u⟩ =
          { route := some ⟨nm, a :: b :: u⟩, welcome_played := false,
            next_index := 1, finished := false, last_message := none } := by
        simp [load_route, initManager]
      have hw := next_message_welcome nm (a :: b :: u) 1 none a z rfl hzla
      have htr := transit_run (b :: u) [a] nm (some (welcomeMessage a z)) z
        (by simp) hz
      simp only [List.singleton_append, List.length_singleton] at htr
      have hrun1 := runN_succ_ok2 _ _ _ (b :: u).length
        (transitMsgs (b :: u)) _ hw htr
      have hfin := runN_finished
        { route := some ⟨nm, a :: b :: u⟩, welcome_played := true,
          next_index := (a :: b :: u).length, finished := true,
          last_message := some (terminalApproachMessage z) }
        ⟨nm, a :: b :: u⟩ rfl rfl k
      have hall := runN_add_ok2 ((b :: u).length + 1) k _ _ _ _ _ hrun1 hfin
      rw [hload]
      rw [show (a :: b :: u).length = (b :: u).length + 1 from rfl]
      rw [hall]
      rw [transitMsgs_eq (b :: u) z hz]
      simp [hzD, hz]

/-- C1 witness: the theorem applied at the concrete three-station route
`["A", "B", "C"]` with one extra call beyond the sequence. -/
theorem C1_multi_station_sequence_witness :
    2 ≤ (["A", "B", "C"] : List String).length ∧
    runN (load_route initManager ⟨"r", ["A", "B", "C"]⟩)
        ((["A", "B", "C"] : List String).length + 1) =
      .ok (some (welcomeMessage ((["A", "B", "C"] : List String).headD "")
                  ((["A", "B", "C"] : List String).getLastD "")) ::
             (((["A", "B", "C"] : List String).drop 1).dropLast.map
                (fun st => some (nextStopMessage st)) ++
              ([some (terminalApproachMessage
                  ((["A", "B", "C"] : List String).getLastD ""))] ++
               List.replicate 1 none)),
           { route := some ⟨"r", ["A", "B", "C"]⟩, welcome_played := true,
             next_index := (["A", "B", "C"] : List String).length,
             finished := true,
             last_message := some (terminalApproachMessage
               ((["A", "B", "C"] : List String).getLastD "")) }) :=
  ⟨by decide, C1_multi_station_sequence "r" ["A", "B", "C"] (by decide) 1⟩

/-- C6: for a single-station route, the first call produces the welcome
message, the second the single-station terminal message and finishes the
route; moreover `next_index` stays `0` after every run, and since branch 5
is the only branch that increments `next_index`, it is never taken. -/
theorem C6_single_station (nm st : String) (k : Nat) :
    runN (load_route initManager ⟨nm, [st]⟩) (2 + k) =
      .ok (some (welcomeMessage st st) :: some (singleTerminalMessage st) ::
             List.replicate k none,
           { route := some ⟨nm, [st]⟩, welcome_played := true, next_index := 0,
             finished := true,
             last_message := some (singleTerminalMessage st) }) ∧
    (∀ j : Nat, (runN (load_route initManager ⟨nm, [st]⟩) j).map
        (fun p => p.2.next_index) = .ok 0) := by
  have hload : load_route initManager ⟨nm, [st]⟩ =
      { route := some ⟨nm, [st]⟩, welcome_played := false, next_index := 0,
        finished := false, last_message := none } := by
    simp [load_route, initManager]
  have hstep1 := next_message_welcome nm [st] 0 none st st rfl (by simp)
  have hstep2 := next_message_single nm st 0 (some (welcomeMessage st st))
  have hmain : ∀ k2 : Nat,
      runN { route := some ⟨nm, [st]⟩, welcome_played := false,
             next_index := 0, finished := false, last_message := none }
          ((k2 + 1) + 1) =
        .ok (some (welcomeMessage st st) :: some (singleTerminalMessage st) ::
               List.replicate k2 none,
             { route := some ⟨nm, [st]⟩, welcome_played := true,
               next_index := 0, finished := true,
               last_message := some (singleTerminalMessage st) }) := by
    intro k2
    have hfin := runN_finished
      { route := some ⟨nm, [st]⟩, welcome_played := true, next_index := 0,
        finished := true, last_message := some (singleTerminalMessage st) }
      ⟨nm, [st]⟩ rfl rfl k2
    have h12 := runN_succ_ok2 _ _ _ k2 _ _ hstep2 hfin
    exact runN_succ_ok2 _ _ _ (k2 + 1) _ _ hstep1 h12
  constructor
  · rw [hload, show 2 + k = (k + 1) + 1 from by omega]
    exact hmain k
  · intro j
    rw [hload]
    match j with
    | 0 => rfl
    | 1 =>
      have h1 := runN_succ_ok2 _ _ _ 0 [] _ hstep1 rfl
      rw [Nat.zero_add] at h1
      rw [h1]; rfl
    | (k2 + 2) =>
      rw [show (k2 + 2 : Nat) = (k2 + 1) + 1 from rfl, hmain k2]
      rfl

/-- C7: `repeat_last` is a pure projection (it takes no lock on state and
mutates nothing by construction); it is `none` right after `load_route`
and right after `reset`, it returns exactly the text of the last
productive `next_message` call, and an unproductive call (`none` signal)
leaves it unchanged. -/
theorem C7_repeat_last (m m2 : AnnouncementManager) (r : Route)
    (t : String) :
    repeat_last (load_route m r) = none ∧
    repeat_last (reset m) = none ∧
    (next_message m = .ok (some t, m2) → repeat_last m2 = some t) ∧
    (next_message m = .ok (none, m2) → repeat_last m2 = repeat_last m) := by
  refine ⟨rfl, rfl, ?_, ?_⟩
  · intro h
    unfold next_message at h
    split at h
    · exact Except.noConfusion h
    · split at h
      · simp only [Except.ok.injEq, Prod.mk.injEq] at h
        exact absurd h.1 (by simp)
      · split at h
        · split at h
          · simp only [Except.ok.injEq, Prod.mk.injEq] at h
            obtain ⟨h1, h2⟩ := h
            rw [← h2]
            simpa [repeat_last] using h1
          · exact Except.noConfusion h
        · split at h
          · split at h
            · simp only [Except.ok.injEq, Prod.mk.injEq] at h
              obtain ⟨h1, h2⟩ := h
              rw [← h2]
              simpa [repeat_last] using h1
            · exact Except.noConfusion h
          · split at h
            · simp only [Except.ok.injEq, Prod.mk.injEq] at h
              obtain ⟨h1, h2⟩ := h
              rw [← h2]
              simpa [repeat_last] using h1
            · split at h
              · split at h
                · simp only [Except.ok.injEq, Prod.mk.injEq] at h
                  obtain ⟨h1, h2⟩ := h
                  rw [← h2]
                  simpa [repeat_last] using h1
                · simp only [Except.ok.injEq, Prod.mk.injEq] at h
                  obtain ⟨h1, h2⟩ := h
                  rw [← h2]
                  simpa [repeat_last] using h1
              · exact Except.noConfusion h
  · intro h
    unfold next_message at h
    split at h
    · exact Except.noConfusion h
    · split at h
      · simp only [Except.ok.injEq, Prod.mk.injEq] at h
        rw [← h.2]
      · split at h
        · split at h
          · simp only [Except.ok.injEq, Prod.mk.injEq] at h
            exact absurd h.1 (by simp)
          · exact Except.noConfusion h
        · split at h
          · split at h
            · simp only [Except.ok.injEq, Prod.mk.injEq] at h
              exact absurd h.1 (by simp)
            · exact Except.noConfusion h
          · split at h
            · simp only [Except.ok.injEq, Prod.mk.injEq] at h
              exact absurd h.1 (by simp)
            · split at h
              · split at h
                · simp only [Except.ok.injEq, Prod.mk.injEq] at h
                  exact absurd h.1 (by simp)
                · simp only [Except.ok.injEq, Prod.mk.injEq] at h
                  exact absurd h.1 (by simp)
              · exact Except.noConfusion h

/-- C7 witness: after the welcome call on `["A", "B"]`, `repeat_last`
returns exactly the welcome text. -/
theorem C7_repeat_last_witness :
    repeat_last { route := some ⟨"r", ["A", "B"]⟩, welcome_played := true,
                  next_index := 1, finished := false,
                  last_message := some (welcomeMessage "A" "B") } =
      some (welcomeMessage "A" "B") :=
  (C7_repeat_last
    { route := some ⟨"r", ["A", "B"]⟩, welcome_played := false,
      next_index := 1, finished := false, last_message := none }
    { route := some ⟨"r", ["A", "B"]⟩, welcome_played := true,
      next_index := 1, finished := false,
      last_message := some (welcomeMessage "A" "B") }
    ⟨"r", ["A", "B"]⟩ (welcomeMessage "A" "B")).2.2.1 rfl

/-- C8: `reset` followed by `load_route r` yields exactly the state of a
fresh sequencer after `load_route r` (indeed `load_route` overwrites every
field), so all subsequent `next_message`, `repeat_last` and
`next_station_name` outputs coincide; no state leaks across routes. -/
theorem C8_reset_load_fresh (m : AnnouncementManager) (r : Route) :
    load_route (reset m) r = load_route initManager r ∧
    (∀ k, runN (load_route (reset m) r) k =
      runN (load_route initManager r) k) ∧
    repeat_last (load_route (reset m) r) =
      repeat_last (load_route initManager r) ∧
    next_station_name (load_route (reset m) r) =
      next_station_name (load_route initManager r) := by
  have h : load_route (reset m) r = load_route initManager r := rfl
  exact ⟨h, fun k => by rw [h], by rw [h], by rw [h]⟩

/-- C5: `next_station_name` is a pure projection (by construction it
mutates nothing); it returns `none` without a route or when finished, the
single station for a one-station route, else `stations[nextIndex]` when
in range and `none` otherwise; after `load_route` of a multi-station
route it already names the first upcoming stop (index 1) before the
welcome has played; and whenever the next `next_message` call will take a
stop/terminal branch (welcome played, not finished, index in range or
single station) it names exactly the station that call announces. -/
theorem C5_next_station_name (m : AnnouncementManager) (r : Route) :
    (m.route = none → next_station_name m = none) ∧
    (m.finished = true → next_station_name m = none) ∧
    (m.route = some r → m.finished = false → r.stations.length = 1 →
      next_station_name m = r.stations.head?) ∧
    (m.route = some r → m.finished = false → r.stations.length ≠ 1 →
      next_station_name m =
        if m.next_index < r.stations.length then r.stations[m.next_index]?
        else none) ∧
    (2 ≤ r.stations.length →
      next_station_name (load_route m r) = r.stations[1]?) ∧
    (m.route = some r → m.finished = false → m.welcome_played = true →
      (r.stations.length = 1 ∨ m.next_index < r.stations.length) →
      ∃ st, next_station_name m = some st ∧
        ((next_message m).map Prod.fst =
            .ok (some (singleTerminalMessage st)) ∨
         (next_message m).map Prod.fst =
            .ok (some (terminalApproachMessage st)) ∨
         (next_message m).map Prod.fst =
            .ok (some (nextStopMessage st)))) := by
  obtain ⟨ro, w, i, f, lm⟩ := m
  obtain ⟨nm, s⟩ := r
  refine ⟨?_, ?_, ?_, ?_, ?_, ?_⟩
  · intro h
    simp only at h
    subst h
    rfl
  · intro h
    simp only at h
    subst h
    cases ro with
    | none => rfl
    | some r2 => simp [next_station_name]
  · intro h1 h2 h3
    simp only at h1 h2
    subst h1; subst h2
    simp [next_station_name, h3]
  · intro h1 h2 h3
    simp only at h1 h2
    subst h1; subst h2
    rcases Nat.lt_or_ge i s.length with hlt | hge
    · simp [next_station_name, h3, hlt, Nat.not_le.mpr hlt]
    · simp [next_station_name, h3, hge, Nat.not_lt.mpr hge]
  · intro h2
    have h2x : 2 ≤ s.length := h2
    have hgt : s.length > 1 := by omega
    have hne : s.length ≠ 1 := by omega
    have hnle : ¬ (s.length ≤ 1) := by omega
    simp [load_route, next_station_name, hgt, hne, hnle]
  · intro h1 h2 h3 hbr
    simp only at h1 h2 h3
    subst h1; subst h2; subst h3
    by_cases hlen : s.length = 1
    · obtain ⟨st, rfl⟩ : ∃ st, s = [st] := by
        cases s with
        | nil => simp at hlen
        | cons aa tt =>
          cases tt with
          | nil => exact ⟨aa, rfl⟩
          | cons bb uu => simp at hlen
      refine ⟨st, by simp [next_station_name], ?_⟩
      left
      rw [next_message_single nm st i lm]
      rfl
    · have hidx : i < s.length := hbr.resolve_left hlen
      obtain ⟨st, hg⟩ : ∃ st, s[i]? = some st :=
        ⟨_, List.getElem?_eq_getElem hidx⟩
      refine ⟨st, by simp [next_station_name, hlen, Nat.not_le.mpr hidx, hg], ?_⟩
      by_cases hlast : i = s.length - 1
      · right; left
        rw [next_message_terminal nm s i lm hlen hidx st hg hlast]
        rfl
      · right; right
        rw [next_message_nextStop nm s i lm hlen hidx st hg hlast]
        rfl

/-- C5 witness: right after loading `["A", "B", "C"]` (welcome not yet
played) the projection already reports the first upcoming stop `"B"`. -/
theorem C5_next_station_name_witness :
    next_station_name (load_route initManager ⟨"r", ["A", "B", "C"]⟩) =
      (["A", "B", "C"] : List String)[1]? :=
  (C5_next_station_name initManager ⟨"r", ["A", "B", "C"]⟩).2.2.2.2.1
    (by decide)

/-! ### Reachability, the index invariant, and farewell unreachability -/

/-- States reachable from `m0` by repeated `next_message` calls. -/
inductive ReachableFrom (m0 : AnnouncementManager) :
    AnnouncementManager → Prop
  | refl : ReachableFrom m0 m0
  | step (m : AnnouncementManager) (o : Option String)
      (m2 : AnnouncementManager) : ReachableFrom m0 m →
      next_message m = .ok (o, m2) → ReachableFrom m0 m2

theorem take_append_left (n : Nat) (l1 l2 : List Char) (h : n ≤ l1.length) :
    (l1 ++ l2).take n = l1.take n := by
  induction l1 generalizing n with
  | nil =>
    have hn : n = 0 := by simpa using h
    subst hn
    rfl
  | cons c cs ih =>
    cases n with
    | zero => rfl
    | succ n2 =>
      simp only [List.cons_append, List.take_succ_cons]
      rw [ih n2 (by simpa using h)]

theorem string_ne_of_take (n : Nat) (s1 s2 : String)
    (h : s1.data.take n ≠ s2.data.take n) : s1 ≠ s2 :=
  fun he => h (by rw [he])

theorem welcome_ne_farewell (a e : String) :
    welcomeMessage a e ≠ farewellMessage := by
  apply string_ne_of_take 3
  unfold welcomeMessage farewellMessage
  simp only [String.data_append]
  rw [take_append_left 3 _ _ (by decide), take_append_left 3 _ _ (by decide)]
  decide

theorem single_ne_farewell (st : String) :
    singleTerminalMessage st ≠ farewellMessage := by
  apply string_ne_of_take 5
  unfold singleTerminalMessage farewellMessage
  simp only [String.data_append]
  rw [take_append_left 5 _ _ (by decide), take_append_left 5 _ _ (by decide)]
  decide

theorem terminal_ne_farewell (st : String) :
    terminalApproachMessage st ≠ farewellMessage := by
  apply string_ne_of_take 5
  unfold terminalApproachMessage farewellMessage
  simp only [String.data_append]
  rw [take_append_left 5 _ _ (by decide), take_append_left 5 _ _ (by decide)]
  decide

theorem nextStop_ne_farewell (st : String) :
    nextStopMessage st ≠ farewellMessage := by
  apply string_ne_of_take 1
  unfold nextStopMessage farewellMessage
  simp only [String.data_append]
  rw [take_append_left 1 _ _ (by decide), take_append_left 1 _ _ (by decide)]
  decide

/-- On any state satisfying the index invariant, `next_message` takes one
of its five productive branches: it succeeds, preserves the route and the
invariant, and never produces the farewell text. -/
theorem next_message_exact (m : AnnouncementManager) (r : Route)
    (hr : m.route = some r) (hne : r.stations ≠ [])
    (hinv : m.finished = false → m.next_index < r.stations.length) :
    ∃ o m2, next_message m = .ok (o, m2) ∧ m2.route = some r ∧
      (m2.finished = false → m2.next_index < r.stations.length) ∧
      o ≠ some farewellMessage := by
  obtain ⟨ro, w, i, f, lm⟩ := m
  obtain ⟨nm, s⟩ := r
  have hr2 : ro = some ⟨nm, s⟩ := hr
  have hne2 : s ≠ [] := hne
  have hinv2 : f = false → i < s.length := hinv
  subst hr2
  cases f with
  | true =>
    refine ⟨none, _, next_message_finished _ ⟨nm, s⟩ rfl rfl, rfl, ?_, by simp⟩
    intro hf
    exact absurd hf (by simp)
  | false =>
    have hidx : i < s.length := hinv2 rfl
    cases w with
    | false =>
      obtain ⟨a, t, rfl⟩ : ∃ a t, s = a :: t := by
        cases s with
        | nil => exact absurd rfl hne2
        | cons a t => exact ⟨a, t, rfl⟩
      have hlast := List.getLast?_eq_getLast (a :: t) (by simp)
      refine ⟨_, _, next_message_welcome nm (a :: t) i lm a _ rfl hlast,
        rfl, fun _ => hidx, ?_⟩
      intro hc
      exact welcome_ne_farewell _ _ (Option.some.inj hc)
    | true =>
      by_cases hlen : s.length = 1
      · obtain ⟨st, rfl⟩ : ∃ st, s = [st] := by
          cases s with
          | nil => simp at hlen
          | cons aa tt =>
            cases tt with
            | nil => exact ⟨aa, rfl⟩
            | cons bb uu => simp at hlen
        refine ⟨_, _, next_message_single nm st i lm, rfl, by simp, ?_⟩
        intro hc
        exact single_ne_farewell st (Option.some.inj hc)
      · obtain ⟨st, hg⟩ : ∃ st, s[i]? = some st :=
          ⟨_, List.getElem?_eq_getElem hidx⟩
        by_cases hlast : i = s.length - 1
        · refine ⟨_, _, next_message_terminal nm s i lm hlen hidx st hg hlast,
            rfl, by simp, ?_⟩
          intro hc
          exact terminal_ne_farewell st (Option.some.inj hc)
        · refine ⟨_, _, next_message_nextStop nm s i lm hlen hidx st hg hlast,
            rfl, ?_, ?_⟩
          · intro _
            show i + 1 < s.length
            omega
          · intro hc
            exact nextStop_ne_farewell st (Option.some.inj hc)

/-- The index invariant of C9 holds in every state reachable from a
loaded route with a non-empty station list, and the route is preserved. -/
theorem reachable_inv (m0 : AnnouncementManager) (r : Route)
    (hne : r.stations ≠ []) (m : AnnouncementManager)
    (h : ReachableFrom (load_route m0 r) m) :
    m.route = some r ∧
    (m.finished = false → m.next_index < r.stations.length) := by
  induction h with
  | refl =>
    refine ⟨rfl, fun _ => ?_⟩
    have hpos : 0 < r.stations.length := List.length_pos.mpr hne
    show (if r.stations.length > 1 then 1 else 0) < r.stations.length
    split <;> omega
  | step mm o m2 hre hstep ih =>
    obtain ⟨hroute, hinv⟩ := ih
    obtain ⟨o2, m3, hnm, hfacts⟩ := next_message_exact mm r hroute hne hinv
    rw [hnm] at hstep
    simp only [Except.ok.injEq, Prod.mk.injEq] at hstep
    obtain ⟨ho, hm⟩ := hstep
    subst hm
    exact ⟨hfacts.1, hfacts.2.1⟩

/-- C9: in every reachable state after loading a non-empty route,
`nextIndex ≥ len(stations)` implies `finished`; consequently the farewell
branch is unreachable and `next_message` never produces the farewell
message, for any route and any call sequence. -/
theorem C9_farewell_unreachable (m0 : AnnouncementManager) (r : Route)
    (hne : r.stations ≠ []) (m : AnnouncementManager)
    (hreach : ReachableFrom (load_route m0 r) m) :
    (r.stations.length ≤ m.next_index → m.finished = true) ∧
    (∀ o m2, next_message m = .ok (o, m2) → o ≠ some farewellMessage) := by
  obtain ⟨hroute, hinv⟩ := reachable_inv m0 r hne m hreach
  constructor
  · intro hge
    cases hf : m.finished with
    | true => rfl
    | false => exact absurd (hinv hf) (Nat.not_lt.mpr hge)
  · intro o m2 hstep
    obtain ⟨o2, m3, hnm, _, _, hno⟩ := next_message_exact m r hroute hne hinv
    rw [hnm] at hstep
    simp only [Except.ok.injEq, Prod.mk.injEq] at hstep
    rw [← hstep.1]
    exact hno

/-- C9 witness: the invariant instantiated right after loading the
two-station route, where the second call has not yet happened. -/
theorem C9_farewell_unreachable_witness :
    ((["A", "B"] : List String) ≠ []) ∧
    ((["A", "B"] : List String).length ≤
        (load_route initManager ⟨"r", ["A", "B"]⟩).next_index →
      (load_route initManager ⟨"r", ["A", "B"]⟩).finished = true) :=
  ⟨by decide,
    (C9_farewell_unreachable initManager ⟨"r", ["A", "B"]⟩ (by decide)
      (load_route initManager ⟨"r", ["A", "B"]⟩) .refl).1⟩

/-- C10: with a non-empty loaded station list, `next_message` never fails
with an index error in any reachable state (it always returns an `ok`
result), and every station name `next_station_name` returns is read at an
in-range index of the station list. -/
theorem C10_index_safety (m0 : AnnouncementManager) (r : Route)
    (hne : r.stations ≠ []) (m : AnnouncementManager)
    (hreach : ReachableFrom (load_route m0 r) m) :
    (∃ o m2, next_message m = .ok (o, m2)) ∧
    (∀ st, next_station_name m = some st →
      ∃ j, j < r.stations.length ∧ r.stations[j]? = some st) := by
  obtain ⟨hroute, hinv⟩ := reachable_inv m0 r hne m hreach
  constructor
  · obtain ⟨o, m2, hnm, _⟩ := next_message_exact m r hroute hne hinv
    exact ⟨o, m2, hnm⟩
  · intro st hs
    unfold next_station_name at hs
    rw [hroute] at hs
    by_cases hf : m.finished = true
    · simp [hf] at hs
    · have hf2 : m.finished = false := by
        cases hfm : m.finished
        · rfl
        · exact absurd hfm hf
      rw [hf2] at hs
      simp only [if_false, Bool.false_eq_true] at hs
      by_cases hlen : r.stations.length = 1
      · rw [if_pos (by simpa using hlen)] at hs
        refine ⟨0, by omega, ?_⟩
        rw [← List.head?_eq_getElem?]
        exact hs
      · rw [if_neg (by simpa using hlen)] at hs
        by_cases hge : r.stations.length ≤ m.next_index
        · rw [if_pos hge] at hs
          exact Option.noConfusion hs
        · rw [if_neg hge] at hs
          refine ⟨m.next_index, by omega, ?_⟩
          rw [← List.get?_eq_getElem?]
          exact hs

/-- C10 witness: instantiated right after loading a one-station route. -/
theorem C10_index_safety_witness :
    ((["A"] : List String) ≠ []) ∧
    ∃ o m2, next_message (load_route initManager ⟨"r", ["A"]⟩) =
      .ok (o, m2) :=
  ⟨by decide,
    (C10_index_safety initManager ⟨"r", ["A"]⟩ (by decide)
      (load_route initManager ⟨"r", ["A"]⟩) .refl).1⟩

/-- Python `str.strip()` on the characters relevant here: whitespace is
removed from both ends. -/
def pyStrip (cs : List Char) : List Char :=
  ((cs.dropWhile Char.isWhitespace).reverse.dropWhile
    Char.isWhitespace).reverse

/-! ### HotkeyController (`keyboard` module abstracted as an oracle) -/

/-- The `HotkeyController` state: its `_handles` dict (name → keyboard handle). -/
structure HotkeyController where
  handles : List (String × Nat)
  deriving Repr, DecidableEq

/-- Embeds `HotkeyController.unregister`: pops the binding under `name` (and
removes the hotkey from the keyboard module); idempotent. -/
def unregister (hc : HotkeyController) (name : String) : HotkeyController :=
  { handles := hc.handles.filter (fun p => p.1 != name) }

/-- Embeds `HotkeyController.register`.  The external `keyboard.add_hotkey` is
abstracted as `addHotkey : String → Option Nat` (`some handle` on
success, `none` when the combination is unparsable, in which case the
Python code raises `ValueError`); `combination.strip()` is modelled by
`pyStrip` on the character list.  The result pairs the final registry
with the raised error message, if any: the method mutates `self._handles`
through `self.unregister(name)` *before* validating the combination. -/
def register (addHotkey : String → Option Nat) (hc : HotkeyController)
    (name combination : String) : HotkeyController × Option String :=
  let hc1 := unregister hc name
  if (pyStrip combination.data).isEmpty then (hc1, none)
  else
    match addHotkey combination with
    | some handle => ({ handles := (name, handle) :: hc1.handles }, none)
    | none => (hc1, some ("ungueltige Hotkey-Kombination: " ++ combination))

/-- C2 counterexample: with an active binding for "next" (handle 5) and
an unparsable combination, `register` raises the error but the registry
is no longer the original one — the previously active binding is gone. -/
theorem C2_counterexample :
    (register (fun _ => none) ⟨[("next", 5)]⟩ "next" "bogus").2 =
      some ("ungueltige Hotkey-Kombination: " ++ "bogus") ∧
    (register (fun _ => none) ⟨[("next", 5)]⟩ "next" "bogus").1 ≠
      (⟨[("next", 5)]⟩ : HotkeyController) := by
  exact ⟨rfl, by decide⟩

/-- C2 amended: on an unparsable non-blank combination, `register` raises
`ValueError` (surfaced to the user as `InvalidHotkeyCombination`) and
leaves the registry equal to the registry with the `name` binding
removed: the previous binding was unregistered before validation, and no
new one is added. -/
theorem C2_register_error_removes_binding (addHotkey : String → Option Nat)
    (hc : HotkeyController) (name combination : String)
    (hblank : (pyStrip combination.data).isEmpty = false)
    (hbad : addHotkey combination = none) :
    register addHotkey hc name combination =
      (unregister hc name,
       some ("ungueltige Hotkey-Kombination: " ++ combination)) := by
  simp [register, hblank, hbad]

/-- C2 witness: the amended theorem at a concrete registry and an
unparsable combination. -/
theorem C2_register_error_removes_binding_witness :
    (pyStrip ("bogus" : String).data).isEmpty = false ∧
    register (fun _ => none) ⟨[("next", 5)]⟩ "next" "bogus" =
      (unregister ⟨[("next", 5)]⟩ "next",
       some ("ungueltige Hotkey-Kombination: " ++ "bogus")) :=
  ⟨by decide, C2_register_error_removes_binding (fun _ => none)
    ⟨[("next", 5)]⟩ "next" "bogus" (by decide) rfl⟩

/-! ### AudioEngine worker loop -/

/-- Exit status of `AudioEngine._run_loop` on a finite prefix of dequeued
items: Python `break`s on the `None` sentinel; an exception raised by the
TTS engine propagates out of the loop (`crashed`); an exhausted modelled
prefix means the loop is still blocked on `queue.get()` (`blocked`). -/
inductive LoopExit where
  | sentinel : LoopExit
  | crashed : String → LoopExit
  | blocked : LoopExit
  deriving Repr, DecidableEq

/-- Embeds `AudioEngine._run_loop`.  The engine calls `stop`/`say`/`runAndWait`
per item are abstracted as one oracle `render : String → Except String
Unit` (`.error` = the external speech capability raised).  The source
loop body contains no try/except. -/
def run_loop (render : String → Except String Unit) :
    List (Option String) → LoopExit
  | [] => .blocked
  | none :: _ => .sentinel
  | some item :: rest =>
    match render item with
    | .ok _ => run_loop render rest
    | .error e => .crashed e

/-- C3 counterexample: a failure while rendering the first item kills the
worker loop even though the shutdown sentinel is queued right behind it —
the loop does not proceed to the next item and does not exit via the
sentinel, contradicting the claimed swallow-and-continue semantics. -/
theorem C3_counterexample :
    run_loop (fun _ => .error "TTS failure") [some "x", none] =
      .crashed "TTS failure" ∧
    run_loop (fun _ => .error "TTS failure") [some "x", none] ≠
      .sentinel := by
  exact ⟨rfl, by decide⟩

/-- C3 amended: a failure raised by the speech capability while rendering
an item propagates and terminates the worker loop immediately (later
queued items, the sentinel included, are not processed); only when every
rendered item succeeds does the loop terminate exactly by dequeuing the
sentinel (or keep blocking if none arrives). -/
theorem C3_failure_kills_loop (render : String → Except String Unit)
    (item e : String) (rest : List (Option String))
    (hfail : render item = .error e) :
    run_loop render (some item :: rest) = .crashed e ∧
    ∀ items : List (Option String),
      (∀ s, some s ∈ items → render s = .ok ()) →
      run_loop render items =
        (if (none : Option String) ∈ items then .sentinel else .blocked) := by
  constructor
  · simp [run_loop, hfail]
  · intro items hok
    induction items with
    | nil => rfl
    | cons it rest2 ih =>
      cases it with
      | none => simp [run_loop]
      | some s =>
        have hs := hok s (List.mem_cons_self _ _)
        have ih2 := ih (fun s2 hm => hok s2 (List.mem_cons_of_mem _ hm))
        simp only [run_loop, hs, ih2]
        simp [List.mem_cons]

/-- C3 witness: the amended theorem at a concrete failing renderer with
the sentinel queued behind the failing item. -/
theorem C3_failure_kills_loop_witness :
    (fun (_ : String) => (.error "TTS failure" : Except String Unit)) "x" =
      .error "TTS failure" ∧
    run_loop (fun _ => .error "TTS failure") [some "x", none] =
      .crashed "TTS failure" :=
  ⟨rfl, (C3_failure_kills_loop (fun _ => .error "TTS failure") "x"
    "TTS failure" [none] rfl).1⟩

/-! ### Route file reading (`_read_route`) -/

/-- Python `str.splitlines` restricted to the line breaks that occur in
text route files: LF, CRLF and CR (a trailing break opens no new line). -/
def splitlines : List Char → List (List Char)
  | [] => []
  | '\n' :: rest => [] :: splitlines rest
  | '\r' :: '\n' :: rest => [] :: splitlines rest
  | '\r' :: rest => [] :: splitlines rest
  | c :: rest =>
    match splitlines rest with
    | [] => [[c]]
    | l :: ls => (c :: l) :: ls

/-- Models `pathlib.PurePath.stem` on the raw path string: the final
path component (the segment after the last `/`), with its last extension
removed when the final dot is neither leading nor trailing (CPython:
`name[:i]` iff `0 < i < len(name) - 1` where `i = name.rfind(".")`). -/
def pathStem (p : List Char) : List Char :=
  let nm := (p.reverse.takeWhile (fun c => c != '/')).reverse
  match nm.reverse.findIdx? (fun c => c == '.') with
  | none => nm
  | some k =>
    let i := nm.length - 1 - k
    if 0 < i ∧ i < nm.length - 1 then nm.take i else nm

/-- Embeds `AnnouncementApp._read_route`, taking the decoded text (the UTF-8 /
latin-1 decoding fallback never fails, so decoding is abstracted away)
and the file path.  Non-empty stripped lines become the stations; zero
stations raises `ValueError`; the route name is `file_path.stem`, with no
fallback of any kind. -/
def _read_route (content : List Char) (filePath : List Char) :
    Except String Route :=
  let stations := (((splitlines content).map pyStrip).filter
    (fun l => !l.isEmpty)).map (fun l => String.mk l)
  if stations.isEmpty then .error "Die Datei enthaelt keine Stationen."
  else .ok ⟨String.mk (pathStem filePath), stations⟩

/-- C4 counterexample: loading a two-station file from the path `/`
(whose stem is empty) yields a route whose name is the empty string —
not a fixed non-empty fallback label. -/
theorem C4_counterexample :
    _read_route ("A\nB".data) ("/".data) = .ok ⟨"", ["A", "B"]⟩ ∧
    ("" : String).length = 0 :=
  ⟨rfl, rfl⟩

/-- C4 amended: for every decoded content and file path on which
`_read_route` succeeds, the derived route name is exactly the path's
stem (final component without its last extension); there is no fallback
label, so an empty stem yields an empty route name. -/
theorem C4_route_name_is_stem (content filePath : List Char) (r : Route)
    (h : _read_route content filePath = .ok r) :
    r.name = String.mk (pathStem filePath) := by
  simp only [_read_route] at h
  split at h
  · exact Except.noConfusion h
  · simp only [Except.ok.injEq] at h
    rw [← h]

/-- C4 witness: the amended theorem on a concrete file. -/
theorem C4_route_name_is_stem_witness :
    _read_route ("A\nB".data) ("routes/lineA.txt".data) =
      .ok ⟨"lineA", ["A", "B"]⟩ ∧
    (⟨"lineA", ["A", "B"]⟩ : Route).name =
      String.mk (pathStem ("routes/lineA.txt".data)) :=
  ⟨rfl, C4_route_name_is_stem ("A\nB".data) ("routes/lineA.txt".data)
    ⟨"lineA", ["A", "B"]⟩ rfl⟩
